import Mathlib

/-!
Shallow embedding of the saeb-questions answer-sheet pipeline.

Sources embedded here:
- src/app.py        : the response-normalization loop inside analyze_image
                      (per-block schema check, question-key parsing, answer
                      lower-casing, per-block error entries);
- src/separed.py    : detect_answer_sheet_blocks (the optimized valley-based
                      column splitter) and the column-splitting part of
                      detect_question_blocks (the alternative profile-based
                      detector with the midpoint fallback);
- src/extract_blocks.py : the contour-based region locator (the candidatos
                      filter and the maximal-contour selection);
- src/gemini_model.py : segment_image_blocks, analyze_block_async and
                      process_blocks_async (fan-out / fan-in orchestration).

Modelling conventions:
- Python exceptions are modelled with Except; a try/except block becomes a
  match on the Except value.  A function that lets an exception escape is
  modelled with an Except result type; a function that catches everything
  (except Exception) is total.
- numpy integer pixel counts are Nat; numpy means of equal-length windows
  are compared by comparing the window sums (mean = sum / 20 for every
  window considered, so the strict-< comparisons coincide); float literals
  0.10, 0.30, 0.90 are modelled as the exact rationals they denote, via
  cross-multiplied integer comparisons.
- The external Gemini client and json.loads are opaque collaborators: they
  are passed in as function parameters, never reimplemented.
-/

namespace Saeb

/-- Values of the dynamically-typed JSON layer exchanged with the vision
service and traversed by the normalization loop in app.py. -/
inductive JVal where
  | jnull
  | jbool (b : Bool)
  | jint (n : Int)
  | jstr (s : String)
  | jarr (items : List JVal)
  | jobj (fields : List (String × JVal))

/-- Python exceptions that the normalization loop can raise and that the
route handler's `except Exception` then turns into a 500 response. -/
inductive PyErr where
  | attributeError
  | typeError
deriving DecidableEq

/-- Python str.lower restricted to ASCII, which is `Char.toLower` mapped over
the characters (all inputs exercised by the pipeline are ASCII). -/
def pyLower (s : String) : String := ⟨s.data.map Char.toLower⟩

/-- Numeric value of a run of ASCII digit characters. -/
def digitsToNat (cs : List Char) : Nat :=
  cs.foldl (fun acc c => 10 * acc + (c.toNat - 48)) 0

/-- Model of Python `int(s)` on a string: an optional sign followed by a
non-empty run of ASCII digits parses to the integer, anything else raises
ValueError (modelled as `none`).  Surrounding whitespace and underscore
separators, which never occur in the pipeline's inputs, are not modelled. -/
def parseIntStr (s : String) : Option Int :=
  match s.data with
  | [] => none
  | '-' :: rest =>
      if rest ≠ [] ∧ rest.all Char.isDigit then some (-(digitsToNat rest : Int)) else none
  | '+' :: rest =>
      if rest ≠ [] ∧ rest.all Char.isDigit then some (digitsToNat rest : Int) else none
  | cs =>
      if cs.all Char.isDigit then some (digitsToNat cs : Int) else none

/-- Python `s.lstrip("0")`: drop leading zero characters. -/
def lstripZeros (s : String) : String := ⟨s.data.dropWhile (fun c => c = '0')⟩

/-- app.py lines 69-72: `q = int(q_raw.lstrip("0") or "0")` with
`except ValueError: q = q_raw`.  An empty string after stripping is falsy,
so `or "0"` substitutes "0"; on parse failure the original string is kept. -/
def parseQuestionKey (s : String) : JVal :=
  match parseIntStr (if lstripZeros s = "" then "0" else lstripZeros s) with
  | some n => .jint n
  | none => .jstr s

/-- Python `fields.get(k, d)` on a dict modelled as an association list. -/
def pyGet (fields : List (String × JVal)) (k : String) (d : JVal) : JVal :=
  match fields.lookup k with
  | some v => v
  | none => d

/-- app.py lines 64-83, body of the per-item normalization:
`q_raw = item.get("question", "")`, `a_raw = item.get("answer", None)`,
integer parsing of the question key (catching only ValueError) and
lower-casing of string answers.  `item.get` on a non-dict raises
AttributeError, and so does `.lstrip` on a non-string question value;
neither is caught inside the loop. -/
def normalizeItem (item : JVal) : Except PyErr JVal :=
  match item with
  | .jobj fields =>
      match pyGet fields "question" (.jstr "") with
      | .jstr s =>
          .ok (.jobj [("question", parseQuestionKey s),
                      ("answer", match pyGet fields "answer" .jnull with
                                 | .jstr t => .jstr (pyLower t)
                                 | v => v)])
      | _ => .error .attributeError
  | _ => .error .attributeError

/-- Python iteration over the value stored under "questions_marked_processed":
lists yield their items, strings yield their one-character substrings, dicts
yield their keys, and non-iterable values raise TypeError. -/
def pyIter (v : JVal) : Except PyErr (List JVal) :=
  match v with
  | .jarr items => .ok items
  | .jstr s => .ok (s.data.map (fun c => .jstr (String.singleton c)))
  | .jobj fields => .ok (fields.map (fun p => JVal.jstr p.1))
  | _ => .error .typeError

/-- The `for item in r["questions_marked_processed"]` loop of app.py:
items are normalized in order and the first uncaught exception aborts the
whole loop (and, upstream, the whole request). -/
def normalizeItems : List JVal → Except PyErr (List JVal)
  | [] => .ok []
  | item :: rest =>
      match normalizeItem item with
      | .error e => .error e
      | .ok n =>
          match normalizeItems rest with
          | .error e => .error e
          | .ok ns => .ok (n :: ns)

/-- A raw per-block result as produced by analyze_block_async: `none` models
Python None (service failure), `some fields` models a decoded JSON object. -/
abbrev RawResult := Option (List (String × JVal))

/-- One entry of the aggregate report built by app.py: either
`{"block": i, "error": "Resposta inválida"}` or
`{"block": i, "response": {"questions_marked_processed": qs, "is_valid_img": iv}}`. -/
inductive Entry where
  | errorEntry (block : Nat)
  | respEntry (block : Nat) (questions : List JVal) (isValidImg : JVal)

/-- app.py lines 54-85 for a single block: the guard
`if not r or "questions_marked_processed" not in r` produces the error entry
(an empty dict is falsy and also has no keys, so the lookup alone decides
the guard); otherwise the items are normalized and `is_valid_img` is read
with `r.get("is_valid_img", False)`. -/
def normalizeBlock (i : Nat) (r : RawResult) : Except PyErr Entry :=
  match r with
  | none => .ok (.errorEntry i)
  | some fields =>
      match fields.lookup "questions_marked_processed" with
      | none => .ok (.errorEntry i)
      | some v =>
          match pyIter v with
          | .error e => .error e
          | .ok items =>
              match normalizeItems items with
              | .error e => .error e
              | .ok ns => .ok (.respEntry i ns (pyGet fields "is_valid_img" (.jbool false)))

/-- The `for i, r in enumerate(responses, start=1)` loop of app.py, with the
running block index threaded through; an uncaught exception from any block
aborts the whole loop. -/
def normalizeFrom (i : Nat) : List RawResult → Except PyErr (List Entry)
  | [] => .ok []
  | r :: rest =>
      match normalizeBlock i r with
      | .error e => .error e
      | .ok e =>
          match normalizeFrom (i + 1) rest with
          | .error er => .error er
          | .ok es => .ok (e :: es)

/-- The full normalization stage of analyze_image (app.py lines 52-85). -/
def normalizeResponses (rs : List RawResult) : Except PyErr (List Entry) :=
  normalizeFrom 1 rs

/-- A raw result that fails the top-level guard of app.py line 54: it is
None, or (being a dict) it is empty or lacks "questions_marked_processed". -/
def topInvalid (r : RawResult) : Bool :=
  match r with
  | none => true
  | some fields => (fields.lookup "questions_marked_processed").isNone

/-- An item that the normalization loop can process without raising: a JSON
object whose "question" value (defaulted to "") is a string. -/
def goodItem (item : JVal) : Bool :=
  match item with
  | .jobj fields =>
      match pyGet fields "question" (.jstr "") with
      | .jstr _ => true
      | _ => false
  | _ => false

/-- A raw result whose normalization cannot raise: either it fails the
top-level guard (and becomes an error entry), or its
"questions_marked_processed" value is an array of well-shaped items. -/
def blockShapeOk (r : RawResult) : Bool :=
  match r with
  | none => true
  | some fields =>
      match fields.lookup "questions_marked_processed" with
      | none => true
      | some (.jarr items) => items.all goodItem
      | some _ => false

/-- Modelled from the spec: the question-key rule of §4.6 — parse the key as
an integer after stripping leading zeros, treat empty-after-strip as zero,
and keep the original string when parsing fails. -/
def specQuestionKey (s : String) : JVal :=
  if lstripZeros s = "" then .jint 0
  else
    match parseIntStr (lstripZeros s) with
    | some n => .jint n
    | none => .jstr s

/-- Modelled from the spec: the answer rule of §4.6 — lower-case string
answers, pass every other value (including null) through unchanged. -/
def specAnswer (v : JVal) : JVal :=
  match v with
  | .jstr t => .jstr (pyLower t)
  | w => w

/-- A raw block result that is valid at the top level but whose
questions_marked_processed items are plain strings (the very shape the
response schema of gemini_model.py declares), not {question, answer}
objects. -/
def c1ItemShapeBad : RawResult :=
  some [("questions_marked_processed", .jarr [.jstr "1:A"]), ("is_valid_img", .jbool true)]

/-- A raw block result that normalizes cleanly. -/
def c1Good : RawResult :=
  some [("questions_marked_processed",
          .jarr [.jobj [("question", .jstr "02"), ("answer", .jstr "C")]]),
        ("is_valid_img", .jbool true)]

/-! ## separed.py : column splitting

A cropped region is represented by its column projection profile
`proj : List Nat` (the per-column foreground pixel counts `col_projection`);
the region width `w_crop` is `proj.length`. -/

/-- Sum of the 20-column window of the profile starting at column i,
`np.sum(col_projection[i:i+window_size])`.  Every window compared by the
refinement loop has exactly 20 columns, so comparing `np.mean` values is the
same as comparing these sums. -/
def windowSum (proj : List Nat) (i : Nat) : Nat :=
  ((proj.drop i).take 20).sum

/-- Helper for `np.argmin`: running first-minimum index, carrying the best
index, the best value and the index of the next element. -/
def argminAux : Nat → Nat → Nat → List Nat → Nat
  | b, _, _, [] => b
  | b, bv, i, x :: xs => if x < bv then argminAux i x (i + 1) xs else argminAux b bv (i + 1) xs

/-- Model of np.argmin on a non-empty list: the index of the first occurrence of the
minimum (0 on the empty list, on which numpy raises instead). -/
def argminIdx : List Nat → Nat
  | [] => 0
  | x :: xs => argminAux 0 x 1 xs

/-- The window start positions scanned by the refinement loop of
detect_answer_sheet_blocks:
`range(max(0, min_col - window_size//2), min(w_crop - window_size, min_col + window_size//2))`
with window_size = 20.  Nat subtraction agrees with the Python ints here:
whenever a Python bound would be negative the range is empty either way. -/
def refineCands (w minCol : Nat) : List Nat :=
  List.range' (max 0 (minCol - 10)) (min (w - 20) (minCol + 10) - max 0 (minCol - 10))

/-- separed.py lines 225-233: the refinement loop.  State: `best` is
best_split, `minDen` is min_density (`none` models the initial float('inf'),
which every first comparison beats).  On `window_density < min_density` the
split moves to the window center `i + window_size//2`. -/
def refineLoop (proj : List Nat) : Nat → Option Nat → List Nat → Nat
  | best, _, [] => best
  | best, minDen, i :: rest =>
      let d := windowSum proj i
      match minDen with
      | none => refineLoop proj (i + 10) (some d) rest
      | some m =>
          if d < m then refineLoop proj (i + 10) (some d) rest
          else refineLoop proj best (some m) rest

/-- separed.py line 216: `start_search = max(0, center - search_range)` with
center = w // 2 and search_range = w // 6. -/
def bandStart (w : Nat) : Nat := max 0 (w / 2 - w / 6)

/-- separed.py line 217: `end_search = min(w_crop, center + search_range)`. -/
def bandEnd (w : Nat) : Nat := min w (w / 2 + w / 6)

/-- The slice `col_projection[start_search:end_search]` scanned by np.argmin
on separed.py line 220. -/
def bandOf (proj : List Nat) : List Nat :=
  (proj.drop (bandStart proj.length)).take (bandEnd proj.length - bandStart proj.length)

/-- separed.py line 220:
`min_col = start_search + np.argmin(col_projection[start_search:end_search])`. -/
def minColOf (proj : List Nat) : Nat :=
  bandStart proj.length + argminIdx (bandOf proj)

/-- separed.py lines 208-233, detect_answer_sheet_blocks from the column
projection onward: the central search band, its first-minimum column
min_col, and the window refinement around it.  `none` models the ValueError
that np.argmin raises on an empty band (the caller's except turns it into a
segmentation failure). -/
def detectAnswerSheetSplit (proj : List Nat) : Option Nat :=
  if bandStart proj.length < bandEnd proj.length then
    some (refineLoop proj (minColOf proj) none (refineCands proj.length (minColOf proj)))
  else none

/-- Width of the numpy slice `crop[:, :s]` of a region of width w. -/
def sliceWidthTo (w s : Nat) : Nat := min s w

/-- Width of the numpy slice `crop[:, s:]` of a region of width w. -/
def sliceWidthFrom (w s : Nat) : Nat := w - s

/-- Modelled from the spec (claim C2 wording): a central search band of
width W/6 centered at W/2, i.e. `[W/2 - W/12, W/2 + W/12)` clamped to the
profile; slide the 20-column window over every start position whose window
fits inside the band; the split is the center `i + 10` of the window of
minimum mean (first on ties), `none` when no window fits. -/
def specC2Split (proj : List Nat) : Option Nat :=
  let w := proj.length
  let bandStart := max 0 (w / 2 - w / 12)
  let bandEnd := min w (w / 2 + w / 12)
  if bandStart + 20 ≤ bandEnd then
    let cands := List.range' bandStart (bandEnd - bandStart - 20 + 1)
    some (bandStart + argminIdx (cands.map (windowSum proj)) + 10)
  else none

/-- Synthetic 120-column projection profile: a single zero-valued noise
column at 45, a wide low-density plateau on columns 64-79, density 100
elsewhere. -/
def profC2 : List Nat :=
  (List.range 120).map (fun j => if j = 45 then 0 else if 64 ≤ j ∧ j < 80 then 1 else 100)

/-- Small 6-column profile whose valley sits at column 2. -/
def prof6 : List Nat := [5, 5, 0, 5, 5, 5]

/-- Minimum of a non-empty list of pixel counts, `np.min` (0 on the empty
list, on which numpy raises instead). -/
def listMin : List Nat → Nat
  | [] => 0
  | x :: xs => xs.foldl min x

/-- Maximum of a non-empty list of pixel counts, `np.max` (0 on the empty
list, on which numpy raises instead). -/
def listMax : List Nat → Nat
  | [] => 0
  | x :: xs => xs.foldl max x

/-- separed.py lines 108-132, the column-splitting decision of
detect_question_blocks: the central band is
`[w//2 - (w//3)//2, w//2 + (w//3)//2)`; two columns are detected when
`max_sides > 0 and min_mid < max_sides * 0.3` (the float comparison is
modelled exactly as `10 * min_mid < 3 * max_sides`), in which case the split
is the band's first-minimum column; otherwise the split is `w // 2`.
`none` models the ValueError np.min / np.max raise when the band or either
flanking slice is empty. -/
def detectQuestionSplit (proj : List Nat) : Option Nat :=
  let w := proj.length
  let midRegion := w / 3
  let midStart := w / 2 - midRegion / 2
  let midEnd := w / 2 + midRegion / 2
  if 0 < midStart ∧ midStart < midEnd ∧ midEnd < w then
    let midValues := (proj.drop midStart).take (midEnd - midStart)
    let minMid := listMin midValues
    let maxSides := max (listMax (proj.take midStart)) (listMax (proj.drop midEnd))
    if 0 < maxSides ∧ 10 * minMid < 3 * maxSides then
      some (midStart + argminIdx midValues)
    else
      some (w / 2)
  else none

/-- Modelled from the spec (claim C9 wording): when the band minimum is not
below 30% of the maximum flanking density, split at the exact midpoint W/2;
otherwise split at the band's minimum-density column. -/
def specC9Split (proj : List Nat) : Option Nat :=
  let w := proj.length
  let midRegion := w / 3
  let midStart := w / 2 - midRegion / 2
  let midEnd := w / 2 + midRegion / 2
  if 0 < midStart ∧ midStart < midEnd ∧ midEnd < w then
    let midValues := (proj.drop midStart).take (midEnd - midStart)
    let minMid := listMin midValues
    let maxSides := max (listMax (proj.take midStart)) (listMax (proj.drop midEnd))
    if 10 * minMid < 3 * maxSides then
      some (midStart + argminIdx midValues)
    else
      some (w / 2)
  else none

/-- Twelve-column profile with a clear valley at column 5 inside the central
band (strong density contrast with the flanks). -/
def profC9a : List Nat := [10, 10, 10, 10, 9, 0, 9, 9, 10, 10, 10, 10]

/-- Twelve-column profile with no density contrast between the central band and
the flanks. -/
def profC9b : List Nat := [10, 10, 10, 10, 9, 9, 9, 9, 10, 10, 10, 10]

/-! ## extract_blocks.py : contour-based region locator

A contour is the list of its polygon vertices, in pixel coordinates. -/

/-- A polygon vertex of a contour, in pixel coordinates. -/
abbrev Pt := Nat × Nat

/-- A contour as returned by cv2.findContours with CHAIN_APPROX_SIMPLE. -/
abbrev Contour := List Pt

/-- Twice the signed shoelace sum of a closed polygon (consecutive vertex
pairs, wrapping around). -/
def shoelace2 : List Pt → Int
  | [] => 0
  | p :: ps =>
      let rec go (first cur : Pt) : List Pt → Int
        | [] => (cur.1 : Int) * (first.2 : Int) - (first.1 : Int) * (cur.2 : Int)
        | q :: qs => ((cur.1 : Int) * (q.2 : Int) - (q.1 : Int) * (cur.2 : Int)) + go first q qs
      go p p ps

/-- Twice `cv2.contourArea`: the absolute shoelace sum (contourArea itself
is half of this; the filter's comparisons are stated cross-multiplied so the
half never has to be taken). -/
def contourArea2 (c : Contour) : Nat := (shoelace2 c).natAbs

/-- Model of cv2.boundingRect: (x, y, w, h) of the tight upright bounding box of a
non-empty point set, with inclusive pixel extents (w = max x - min x + 1). -/
def boundingRect (c : Contour) : Nat × Nat × Nat × Nat :=
  let xs := c.map Prod.fst
  let ys := c.map Prod.snd
  (listMin xs, listMin ys, listMax xs - listMin xs + 1, listMax ys - listMin ys + 1)

/-- extract_blocks.py lines 38-44, the filter deciding membership in
candidatos: `cv2.contourArea` strictly between 10% and 90% of the image
area (exactly: area > 0.10 * img_area and area < 0.90 * img_area, stated
on doubled areas as 5 * area2 > img_area and 5 * area2 < 9 * img_area),
and a bounding box spanning neither the full width nor the full height. -/
def candidatoKeep (wImg hImg : Nat) (c : Contour) : Bool :=
  let imgArea := wImg * hImg
  let area2 := contourArea2 c
  if 5 * area2 > imgArea ∧ 5 * area2 < 9 * imgArea then
    let r := boundingRect c
    decide (r.2.2.1 < wImg ∧ r.2.2.2 < hImg)
  else false

/-- Python `max(candidatos, key=lambda x: x[0])` over the (area, contour)
pairs: the first contour of maximal contour area. -/
def maxByArea (c : Contour) (cs : List Contour) : Contour :=
  cs.foldl (fun acc d => if contourArea2 d > contourArea2 acc then d else acc) c

/-- extract_blocks.py lines 36-51: filter the contours, fail (RuntimeError,
the NoRegionFound failure) when no candidate remains, otherwise return the
bounding box of the candidate of maximal contour area. -/
def contourLocate (wImg hImg : Nat) (contours : List Contour) :
    Option (Nat × Nat × Nat × Nat) :=
  match contours.filter (candidatoKeep wImg hImg) with
  | [] => none
  | c :: cs => some (boundingRect (maxByArea c cs))

/-- Modelled from the spec (claim C3 wording): keep a contour when its
bounding-box area lies strictly between 10% and 90% of the image area and
its bounding box spans neither the full width nor the full height. -/
def specC3Keep (wImg hImg : Nat) (c : Contour) : Bool :=
  let r := boundingRect c
  let bboxArea := r.2.2.1 * r.2.2.2
  decide (10 * bboxArea > wImg * hImg ∧ 10 * bboxArea < 9 * (wImg * hImg) ∧
    r.2.2.1 < wImg ∧ r.2.2.2 < hImg)

/-- A thin sliver triangle: its bounding box covers most of a 10 x 10 image
(area 81) while its polygon area is only 4 (doubled: 8). -/
def sliverC3 : Contour := [(0, 0), (8, 8), (8, 7)]

/-- A solid square contour occupying 25% of a 10 x 10 image. -/
def squareC3 : Contour := [(2, 2), (7, 2), (7, 7), (2, 7)]

/-! ## gemini_model.py : segmentation wrapper and async orchestration -/

/-- A segmented image block; only its numpy `size` (total element count)
is observable to the orchestration code. -/
structure ImgBlock where
  size : Nat
deriving DecidableEq

/-- Outcome of one call to the external Gemini service for one block:
either an exception (network, auth, quota ...) or a response text. -/
inductive SvcOutcome where
  | raise
  | response (text : String)

/-- Body of analyze_block_async (gemini_model.py lines 69-182), inside its
try: a None or zero-size block returns None early; then the external call
either raises or yields a text which json.loads (the `decode` parameter)
parses, a JSONDecodeError being caught and turned into None. -/
def analyzeBlockBody (service : Nat → ImgBlock → SvcOutcome)
    (decode : String → Option JVal) (block : Option ImgBlock) (id : Nat) :
    Except Unit (Option JVal) :=
  match block with
  | none => .ok none
  | some b =>
      if b.size = 0 then .ok none
      else
        match service id b with
        | .raise => .error ()
        | .response t =>
            match decode t with
            | some j => .ok (some j)
            | none => .ok none

/-- analyze_block_async with its outer `except Exception` (lines 186-188):
every exception becomes the per-block failure marker None. -/
def analyzeBlockAsync (service : Nat → ImgBlock → SvcOutcome)
    (decode : String → Option JVal) (block : Option ImgBlock) (id : Nat) :
    Option JVal :=
  match analyzeBlockBody service decode block id with
  | .ok v => v
  | .error _ => none

/-- The task list built by process_blocks_async with
`enumerate(segmented_blocks, start=1)`, fanned back in by asyncio.gather,
which returns the results in task order. -/
def gatherFrom (service : Nat → ImgBlock → SvcOutcome)
    (decode : String → Option JVal) (i : Nat) :
    List (Option ImgBlock) → List (Option JVal)
  | [] => []
  | b :: rest =>
      analyzeBlockAsync service decode b i :: gatherFrom service decode (i + 1) rest

/-- gemini_model.py lines 190-200, process_blocks_async: an empty (falsy)
block list short-circuits to an empty result; otherwise one task per block,
results index-aligned with the input. -/
def processBlocksAsync (service : Nat → ImgBlock → SvcOutcome)
    (decode : String → Option JVal) (blocks : List (Option ImgBlock)) :
    List (Option JVal) :=
  if blocks.isEmpty then [] else gatherFrom service decode 1 blocks

/-- Outcome of the selected detector inside segment_image_blocks: either an
exception somewhere in the try block (including the ValueError for an
unknown method) or a returned (left, right) pair, each side possibly None
as detect_question_blocks returns on failure. -/
inductive DetectOutcome where
  | raise
  | pair (left right : Option ImgBlock)

/-- gemini_model.py lines 19-65, segment_image_blocks: any exception is
caught and becomes None; a None side or a zero-size side becomes None;
otherwise the function returns the two-element list [left, right]. -/
def segmentImageBlocks (outcome : DetectOutcome) : Option (List ImgBlock) :=
  match outcome with
  | .raise => none
  | .pair left right =>
      match left, right with
      | some l, some r =>
          if l.size = 0 ∨ r.size = 0 then none else some [l, r]
      | _, _ => none

/-! ## Helper lemmas -/

theorem toNat_ofNat_upper : ∀ n < 91, 65 ≤ n → (Char.ofNat (n + 32)).toNat = n + 32 := by
  decide

theorem toLower_toLower (c : Char) : c.toLower.toLower = c.toLower := by
  unfold Char.toLower
  by_cases h : c.toNat ≥ 65 ∧ c.toNat ≤ 90
  · rw [if_pos h]
    have hk := toNat_ofNat_upper c.toNat (by omega) h.1
    rw [if_neg (by omega)]
  · rw [if_neg h, if_neg h]

theorem pyLower_idem (s : String) : pyLower (pyLower s) = pyLower s := by
  unfold pyLower
  have h : Char.toLower ∘ Char.toLower = Char.toLower := funext toLower_toLower
  simp [List.map_map, h]

theorem specAnswer_idem (v : JVal) : specAnswer (specAnswer v) = specAnswer v := by
  cases v <;> simp [specAnswer, pyLower_idem]

theorem parseQuestionKey_eq_spec (s : String) : parseQuestionKey s = specQuestionKey s := by
  unfold parseQuestionKey specQuestionKey
  by_cases h : lstripZeros s = ""
  · rw [if_pos h, if_pos h]
    rfl
  · rw [if_neg h, if_neg h]

theorem normalizeItem_eq (fields : List (String × JVal)) :
    normalizeItem (.jobj fields) =
      (match pyGet fields "question" (.jstr "") with
       | JVal.jstr u =>
           Except.ok (JVal.jobj [("question", parseQuestionKey u),
             ("answer", match pyGet fields "answer" JVal.jnull with
                        | JVal.jstr t => JVal.jstr (pyLower t)
                        | v => v)])
       | _ => Except.error PyErr.attributeError) := rfl

theorem normalizeItem_obj (fields : List (String × JVal)) (s : String)
    (hq : pyGet fields "question" (.jstr "") = .jstr s) :
    normalizeItem (.jobj fields) =
      .ok (.jobj [("question", parseQuestionKey s),
                  ("answer", specAnswer (pyGet fields "answer" .jnull))]) := by
  rw [normalizeItem_eq, hq]
  cases pyGet fields "answer" .jnull <;> rfl

theorem parseQuestionKey_jstr {s t : String} (h : parseQuestionKey s = .jstr t) : t = s := by
  simp only [parseQuestionKey] at h
  cases hp : parseIntStr (if lstripZeros s = "" then "0" else lstripZeros s) with
  | some n => rw [hp] at h; exact JVal.noConfusion h
  | none => rw [hp] at h; exact (JVal.jstr.inj h).symm

theorem normalizeItem_obj_err (fields : List (String × JVal))
    (h : ∀ s, pyGet fields "question" (.jstr "") ≠ JVal.jstr s) :
    normalizeItem (.jobj fields) = .error .attributeError := by
  rw [normalizeItem_eq]
  cases hq : pyGet fields "question" (.jstr "") with
  | jstr s => exact absurd hq (h s)
  | jnull => rfl
  | jbool b => rfl
  | jint n => rfl
  | jarr xs => rfl
  | jobj fs => rfl

/-! ## Claim C6 -/

/-- Claim C6: for every raw (question_key, answer_value) pair, normalization
parses question_key as an integer after stripping leading zeros
(empty-after-strip treated as zero), keeps the original string key when
parsing fails, lower-cases string answers, and passes null and other
non-string answers through unchanged; in particular "01" maps to 1, "abc"
stays "abc", "B" maps to "b", null stays null. -/
theorem c6_item_normalization :
    (∀ (s : String) (av : JVal),
      normalizeItem (.jobj [("question", .jstr s), ("answer", av)]) =
        .ok (.jobj [("question", specQuestionKey s), ("answer", specAnswer av)])) ∧
    specQuestionKey "01" = .jint 1 ∧
    specQuestionKey "abc" = .jstr "abc" ∧
    normalizeItem (.jobj [("question", .jstr "01"), ("answer", .jstr "B")]) =
      .ok (.jobj [("question", .jint 1), ("answer", .jstr "b")]) ∧
    normalizeItem (.jobj [("question", .jstr "abc"), ("answer", .jnull)]) =
      .ok (.jobj [("question", .jstr "abc"), ("answer", .jnull)]) := by
  refine ⟨fun s av => ?_, rfl, rfl, rfl, rfl⟩
  rw [normalizeItem_obj [("question", .jstr s), ("answer", av)] s rfl, parseQuestionKey_eq_spec]
  rfl

/-! ## Claim C4 -/

/-- Claim C4 counterexample: normalizing the already-normalized output of a
successfully parsed item does not yield the same mapping — it raises
AttributeError, because the normalized question is an int and only
ValueError is caught around the lstrip call. -/
theorem c4_counterexample :
    normalizeItem (.jobj [("question", .jstr "01"), ("answer", .jstr "B")]) =
      .ok (.jobj [("question", .jint 1), ("answer", .jstr "b")]) ∧
    normalizeItem (.jobj [("question", .jint 1), ("answer", .jstr "b")]) =
      .error .attributeError := ⟨rfl, rfl⟩

/-- Claim C4 amended: the normalizer is idempotent only on normalized items
whose question key remained a string (integer parsing failed); re-applying
it to such an output returns the output unchanged.  (For items whose
question was parsed to an integer, re-application raises AttributeError, as
the counterexample shows.) -/
theorem c4_amended (item out : JVal) (h : normalizeItem item = .ok out)
    (hq : ∃ s a, out = .jobj [("question", JVal.jstr s), ("answer", a)]) :
    normalizeItem out = .ok out := by
  obtain ⟨s, a, rfl⟩ := hq
  cases item with
  | jobj fields =>
      cases hqr : pyGet fields "question" (.jstr "") with
      | jstr s0 =>
          rw [normalizeItem_obj fields s0 hqr] at h
          simp only [Except.ok.injEq, JVal.jobj.injEq, List.cons.injEq, Prod.mk.injEq,
            true_and, and_true] at h
          obtain ⟨h1, h2⟩ := h
          have hss : s = s0 := parseQuestionKey_jstr h1
          rw [hss] at h1 ⊢
          rw [normalizeItem_obj [("question", .jstr s0), ("answer", a)] s0 rfl]
          rw [show pyGet [("question", JVal.jstr s0), ("answer", a)] "answer" .jnull = a from rfl]
          rw [h1, ← h2, specAnswer_idem]
      | jnull =>
          rw [normalizeItem_obj_err fields (by intro t ht; rw [hqr] at ht; exact JVal.noConfusion ht)] at h
          exact Except.noConfusion h
      | jbool b =>
          rw [normalizeItem_obj_err fields (by intro t ht; rw [hqr] at ht; exact JVal.noConfusion ht)] at h
          exact Except.noConfusion h
      | jint n =>
          rw [normalizeItem_obj_err fields (by intro t ht; rw [hqr] at ht; exact JVal.noConfusion ht)] at h
          exact Except.noConfusion h
      | jarr xs =>
          rw [normalizeItem_obj_err fields (by intro t ht; rw [hqr] at ht; exact JVal.noConfusion ht)] at h
          exact Except.noConfusion h
      | jobj fs =>
          rw [normalizeItem_obj_err fields (by intro t ht; rw [hqr] at ht; exact JVal.noConfusion ht)] at h
          exact Except.noConfusion h
  | jnull => exact Except.noConfusion h
  | jbool b => exact Except.noConfusion h
  | jint n => exact Except.noConfusion h
  | jstr t => exact Except.noConfusion h
  | jarr xs => exact Except.noConfusion h

/-- Witness for c4_amended at a concrete input: the item with the
unparseable key "abc" normalizes to itself once lower-cased, and
re-normalizing that output returns it unchanged. -/
theorem c4_amended_witness :
    normalizeItem (.jobj [("question", JVal.jstr "abc"), ("answer", JVal.jstr "b")]) =
      .ok (.jobj [("question", JVal.jstr "abc"), ("answer", JVal.jstr "b")]) :=
  c4_amended (.jobj [("question", .jstr "abc"), ("answer", .jstr "B")])
    (.jobj [("question", .jstr "abc"), ("answer", .jstr "b")]) rfl
    ⟨"abc", .jstr "b", rfl⟩

/-! ## Claim C5 -/

theorem normalizeBlock_eq (i : Nat) (fields : List (String × JVal)) :
    normalizeBlock i (some fields) =
      (match fields.lookup "questions_marked_processed" with
       | none => .ok (.errorEntry i)
       | some v =>
           match pyIter v with
           | .error e => .error e
           | .ok items =>
               match normalizeItems items with
               | .error e => .error e
               | .ok ns =>
                   .ok (.respEntry i ns (pyGet fields "is_valid_img" (.jbool false)))) := rfl

theorem normalizeBlock_arr (i : Nat) (fields : List (String × JVal)) (qs : List JVal)
    (hlk : fields.lookup "questions_marked_processed" = some (JVal.jarr qs)) :
    normalizeBlock i (some fields) =
      (match normalizeItems qs with
       | .error e => .error e
       | .ok ns =>
           .ok (.respEntry i ns (pyGet fields "is_valid_img" (.jbool false)))) := by
  rw [normalizeBlock_eq, hlk]
  rfl

/-- Claim C5 counterexample: a raw result carrying
questions_marked_processed but lacking is_valid_img is not turned into an
InvalidResponse error entry; the missing field is silently defaulted to
False and an ordinary response entry is produced. -/
theorem c5_counterexample :
    normalizeBlock 1 (some [("questions_marked_processed", JVal.jarr [])]) =
      .ok (.respEntry 1 [] (.jbool false)) ∧
    ∀ b, Entry.respEntry 1 [] (.jbool false) ≠ Entry.errorEntry b :=
  ⟨rfl, fun _ h => Entry.noConfusion h⟩

/-- Claim C5 amended: only questions_marked_processed is validated — a raw
result that is None, an empty dict, or lacks that key yields the
InvalidResponse error entry for its block; a missing is_valid_img is
silently defaulted to False in an ordinary response entry. -/
theorem c5_amended :
    (∀ (i : Nat) (r : RawResult), topInvalid r = true →
        normalizeBlock i r = .ok (.errorEntry i)) ∧
    (∀ (i : Nat) (fields : List (String × JVal)) (qs ns : List JVal),
        fields.lookup "questions_marked_processed" = some (.jarr qs) →
        fields.lookup "is_valid_img" = none →
        normalizeItems qs = .ok ns →
        normalizeBlock i (some fields) = .ok (.respEntry i ns (.jbool false))) := by
  constructor
  · intro i r h
    cases r with
    | none => rfl
    | some fields =>
        simp only [topInvalid, Option.isNone_iff_eq_none] at h
        rw [normalizeBlock_eq, h]
  · intro i fields qs ns hlk hiv hns
    rw [normalizeBlock_arr i fields qs hlk, hns,
      show pyGet fields "is_valid_img" (.jbool false) = .jbool false from by
        unfold pyGet; rw [hiv]]

/-- Witness for c5_amended at concrete inputs: a None result becomes the
error entry for its block, and a result without is_valid_img becomes a
response entry with is_valid_img = false. -/
theorem c5_amended_witness :
    normalizeBlock 3 none = .ok (.errorEntry 3) ∧
    normalizeBlock 2 (some [("questions_marked_processed", JVal.jarr [])]) =
      .ok (.respEntry 2 [] (.jbool false)) :=
  ⟨c5_amended.1 3 none rfl,
   c5_amended.2 2 [("questions_marked_processed", JVal.jarr [])] [] [] rfl rfl rfl⟩

/-! ## Claim C1 -/

/-- Claim C1 counterexample: a raw result whose questions_marked_processed
items are plain strings (exactly the shape the configured response schema
produces) does not get a per-block InvalidResponse entry — normalization of
the whole batch aborts with an uncaught AttributeError, killing the sibling
block's processing with it. -/
theorem c1_counterexample :
    normalizeResponses [c1ItemShapeBad, c1Good] = .error .attributeError ∧
    ∀ es, normalizeResponses [c1ItemShapeBad, c1Good] ≠ .ok es := by
  refine ⟨rfl, fun es h => ?_⟩
  rw [show normalizeResponses [c1ItemShapeBad, c1Good] = .error .attributeError from rfl] at h
  exact Except.noConfusion h

theorem normalizeItem_good (item : JVal) (h : goodItem item = true) :
    ∃ out, normalizeItem item = .ok out := by
  cases item with
  | jobj fields =>
      cases hq : pyGet fields "question" (.jstr "") with
      | jstr s => exact ⟨_, normalizeItem_obj fields s hq⟩
      | jnull => simp only [goodItem] at h; rw [hq] at h; simp at h
      | jbool b => simp only [goodItem] at h; rw [hq] at h; simp at h
      | jint n => simp only [goodItem] at h; rw [hq] at h; simp at h
      | jarr xs => simp only [goodItem] at h; rw [hq] at h; simp at h
      | jobj fs => simp only [goodItem] at h; rw [hq] at h; simp at h
  | jnull => simp [goodItem] at h
  | jbool b => simp [goodItem] at h
  | jint n => simp [goodItem] at h
  | jstr t => simp [goodItem] at h
  | jarr xs => simp [goodItem] at h

theorem normalizeItems_good (items : List JVal) (h : items.all goodItem = true) :
    ∃ ns, normalizeItems items = .ok ns := by
  induction items with
  | nil => exact ⟨[], rfl⟩
  | cons it rest ih =>
      rw [List.all_cons, Bool.and_eq_true] at h
      obtain ⟨out, ho⟩ := normalizeItem_good it h.1
      obtain ⟨ns, hn⟩ := ih h.2
      refine ⟨out :: ns, ?_⟩
      rw [show normalizeItems (it :: rest) =
            (match normalizeItem it with
             | .error e => .error e
             | .ok n =>
                 match normalizeItems rest with
                 | .error e => .error e
                 | .ok ns2 => .ok (n :: ns2)) from rfl, ho, hn]

theorem normalizeBlock_shape (i : Nat) (r : RawResult) (h : blockShapeOk r = true) :
    ∃ e, normalizeBlock i r = .ok e ∧ (e = .errorEntry i ↔ topInvalid r = true) := by
  cases r with
  | none => exact ⟨.errorEntry i, rfl, by simp [topInvalid]⟩
  | some fields =>
      cases hlk : fields.lookup "questions_marked_processed" with
      | none =>
          refine ⟨.errorEntry i, ?_, by simp [topInvalid, hlk]⟩
          rw [normalizeBlock_eq, hlk]
      | some v =>
          simp only [blockShapeOk] at h
          rw [hlk] at h
          cases v with
          | jarr items =>
              obtain ⟨ns, hns⟩ := normalizeItems_good items h
              refine ⟨.respEntry i ns (pyGet fields "is_valid_img" (.jbool false)), ?_, ?_⟩
              · rw [normalizeBlock_arr i fields items hlk, hns]
              · constructor
                · intro hh; exact Entry.noConfusion hh
                · intro hh; simp [topInvalid, hlk] at hh
          | jnull => simp at h
          | jbool b => simp at h
          | jint n => simp at h
          | jstr s => simp at h
          | jobj fs => simp at h

theorem normalizeFrom_shape (i : Nat) (rs : List RawResult)
    (h : ∀ r ∈ rs, blockShapeOk r = true) :
    ∃ es, normalizeFrom i rs = .ok es ∧ es.length = rs.length ∧
      ∀ j (hj : j < rs.length) (hj2 : j < es.length),
        (es.get ⟨j, hj2⟩ = .errorEntry (i + j) ↔ topInvalid (rs.get ⟨j, hj⟩) = true) := by
  induction rs generalizing i with
  | nil => exact ⟨[], rfl, rfl, fun j hj => absurd hj (by simp)⟩
  | cons r rest ih =>
      obtain ⟨e, he, hiff⟩ := normalizeBlock_shape i r (h r (by simp))
      obtain ⟨es, hes, hlen, hidx⟩ := ih (i + 1) (fun x hx => h x (by simp [hx]))
      refine ⟨e :: es, ?_, by simp [hlen], ?_⟩
      · rw [show normalizeFrom i (r :: rest) =
              (match normalizeBlock i r with
               | .error er => .error er
               | .ok e2 =>
                   match normalizeFrom (i + 1) rest with
                   | .error er => .error er
                   | .ok es2 => .ok (e2 :: es2)) from rfl, he, hes]
      · intro j hj hj2
        cases j with
        | zero =>
            rw [show (e :: es).get ⟨0, hj2⟩ = e from rfl,
              show (r :: rest).get ⟨0, hj⟩ = r from rfl, Nat.add_zero]
            exact hiff
        | succ k =>
            have hk : k < rest.length := Nat.lt_of_succ_lt_succ hj
            have hk2 : k < es.length := Nat.lt_of_succ_lt_succ hj2
            rw [show (e :: es).get ⟨k + 1, hj2⟩ = es.get ⟨k, hk2⟩ from rfl,
              show (r :: rest).get ⟨k + 1, hj⟩ = rest.get ⟨k, hk⟩ from rfl,
              show i + (k + 1) = i + 1 + k from by omega]
            exact hidx k hk hk2

/-- Claim C1 amended: raw results that are falsy or lack the
questions_marked_processed field are recorded as per-block InvalidResponse
error entries, and sibling blocks keep being processed, provided every
present questions_marked_processed is an array of well-shaped items; an
item without the expected object shape instead aborts the whole batch with
an uncaught exception (shown by the counterexample). -/
theorem c1_amended (rs : List RawResult) (h : ∀ r ∈ rs, blockShapeOk r = true) :
    ∃ es, normalizeResponses rs = .ok es ∧ es.length = rs.length ∧
      ∀ j (hj : j < rs.length) (hj2 : j < es.length),
        (es.get ⟨j, hj2⟩ = .errorEntry (j + 1) ↔ topInvalid (rs.get ⟨j, hj⟩) = true) := by
  obtain ⟨es, hes, hlen, hidx⟩ := normalizeFrom_shape 1 rs h
  exact ⟨es, hes, hlen, fun j hj hj2 => by simpa [Nat.add_comm] using hidx j hj hj2⟩

/-- Witness for c1_amended at a concrete input: a batch of a failed block
followed by a well-formed block normalizes to a two-entry report whose
first entry is the error entry for block 1. -/
theorem c1_amended_witness :
    ∃ es, normalizeResponses [none, c1Good] = .ok es ∧
      es.length = 2 ∧ ∀ (hj2 : 0 < es.length), es.get ⟨0, hj2⟩ = .errorEntry 1 := by
  obtain ⟨es, hes, hlen, hidx⟩ := c1_amended [none, c1Good] (by
    intro r hr
    rcases List.mem_cons.mp hr with rfl | hr2
    · rfl
    · rcases List.mem_cons.mp hr2 with rfl | h3
      · rfl
      · cases h3)
  refine ⟨es, hes, by rw [hlen]; rfl, fun hj2 => ?_⟩
  exact (hidx 0 (by simp) hj2).mpr rfl

/-! ## Claims C2 and C8 : the valley-based column splitter -/

theorem argminAux_spec (l : List Nat) : ∀ (b bv i : Nat),
    (argminAux b bv i l = b ∧ ∀ k, k < l.length → bv ≤ l.getD k 0) ∨
    (∃ k, k < l.length ∧ argminAux b bv i l = i + k ∧ l.getD k 0 ≤ bv ∧
      ∀ m, m < l.length → l.getD k 0 ≤ l.getD m 0) := by
  induction l with
  | nil =>
      intro b bv i
      exact Or.inl ⟨rfl, fun k hk => absurd hk (by simp)⟩
  | cons x xs ih =>
      intro b bv i
      by_cases h : x < bv
      · rw [show argminAux b bv i (x :: xs) = argminAux i x (i + 1) xs from by
          simp [argminAux, h]]
        rcases ih i x (i + 1) with ⟨heq, hall⟩ | ⟨k, hk, heq, hle, hmin⟩
        · refine Or.inr ⟨0, by simp, by omega, Nat.le_of_lt h, ?_⟩
          intro m hm
          cases m with
          | zero => exact Nat.le_refl x
          | succ m2 => exact hall m2 (Nat.lt_of_succ_lt_succ hm)
        · refine Or.inr ⟨k + 1, Nat.succ_lt_succ hk, by omega,
            Nat.le_of_lt (Nat.lt_of_le_of_lt hle h), ?_⟩
          intro m hm
          cases m with
          | zero => exact hle
          | succ m2 => exact hmin m2 (Nat.lt_of_succ_lt_succ hm)
      · rw [show argminAux b bv i (x :: xs) = argminAux b bv (i + 1) xs from by
          simp [argminAux, h]]
        rcases ih b bv (i + 1) with ⟨heq, hall⟩ | ⟨k, hk, heq, hle, hmin⟩
        · refine Or.inl ⟨heq, ?_⟩
          intro k hk
          cases k with
          | zero => exact Nat.le_of_not_lt h
          | succ k2 => exact hall k2 (Nat.lt_of_succ_lt_succ hk)
        · refine Or.inr ⟨k + 1, Nat.succ_lt_succ hk, by omega, hle, ?_⟩
          intro m hm
          cases m with
          | zero => exact Nat.le_trans hle (Nat.le_of_not_lt h)
          | succ m2 => exact hmin m2 (Nat.lt_of_succ_lt_succ hm)

theorem argminIdx_spec (x : Nat) (xs : List Nat) :
    argminIdx (x :: xs) < (x :: xs).length ∧
      ∀ m, m < (x :: xs).length →
        (x :: xs).getD (argminIdx (x :: xs)) 0 ≤ (x :: xs).getD m 0 := by
  rw [show argminIdx (x :: xs) = argminAux 0 x 1 xs from rfl]
  rcases argminAux_spec xs 0 x 1 with ⟨heq, hall⟩ | ⟨k, hk, heq, hle, hmin⟩
  · rw [heq]
    refine ⟨by simp, ?_⟩
    intro m hm
    cases m with
    | zero => exact Nat.le_refl x
    | succ m2 => exact hall m2 (Nat.lt_of_succ_lt_succ hm)
  · have heq2 : argminAux 0 x 1 xs = k + 1 := by omega
    rw [heq2]
    refine ⟨Nat.succ_lt_succ hk, ?_⟩
    intro m hm
    rw [show (x :: xs).getD (k + 1) 0 = xs.getD k 0 from rfl]
    cases m with
    | zero => exact hle
    | succ m2 => exact hmin m2 (Nat.lt_of_succ_lt_succ hm)

theorem refineLoop_some_spec (proj : List Nat) (l : List Nat) : ∀ (best m : Nat),
    (refineLoop proj best (some m) l = best ∧ ∀ j ∈ l, m ≤ windowSum proj j) ∨
    (∃ i ∈ l, refineLoop proj best (some m) l = i + 10 ∧ windowSum proj i < m ∧
      ∀ j ∈ l, windowSum proj i ≤ windowSum proj j) := by
  induction l with
  | nil => intro best m; exact Or.inl ⟨rfl, by simp⟩
  | cons i0 rest ih =>
      intro best m
      by_cases h : windowSum proj i0 < m
      · rw [show refineLoop proj best (some m) (i0 :: rest) =
              refineLoop proj (i0 + 10) (some (windowSum proj i0)) rest from by
            simp [refineLoop, h]]
        rcases ih (i0 + 10) (windowSum proj i0) with ⟨heq, hall⟩ | ⟨i, hi, heq, hlt, hmin⟩
        · refine Or.inr ⟨i0, by simp, heq, h, ?_⟩
          intro j hj
          rcases List.mem_cons.mp hj with rfl | hj2
          · exact Nat.le_refl _
          · exact hall j hj2
        · refine Or.inr ⟨i, by simp [hi], heq, Nat.lt_trans hlt h, ?_⟩
          intro j hj
          rcases List.mem_cons.mp hj with rfl | hj2
          · exact Nat.le_of_lt hlt
          · exact hmin j hj2
      · rw [show refineLoop proj best (some m) (i0 :: rest) =
              refineLoop proj best (some m) rest from by simp [refineLoop, h]]
        rcases ih best m with ⟨heq, hall⟩ | ⟨i, hi, heq, hlt, hmin⟩
        · refine Or.inl ⟨heq, ?_⟩
          intro j hj
          rcases List.mem_cons.mp hj with rfl | hj2
          · exact Nat.le_of_not_lt h
          · exact hall j hj2
        · refine Or.inr ⟨i, by simp [hi], heq, hlt, ?_⟩
          intro j hj
          rcases List.mem_cons.mp hj with rfl | hj2
          · exact Nat.le_trans (Nat.le_of_lt hlt) (Nat.le_of_not_lt h)
          · exact hmin j hj2

theorem refineLoop_none_spec (proj : List Nat) (best i0 : Nat) (rest : List Nat) :
    ∃ i ∈ i0 :: rest, refineLoop proj best none (i0 :: rest) = i + 10 ∧
      ∀ j ∈ i0 :: rest, windowSum proj i ≤ windowSum proj j := by
  rw [show refineLoop proj best none (i0 :: rest) =
        refineLoop proj (i0 + 10) (some (windowSum proj i0)) rest from by simp [refineLoop]]
  rcases refineLoop_some_spec proj rest (i0 + 10) (windowSum proj i0) with
    ⟨heq, hall⟩ | ⟨i, hi, heq, hlt, hmin⟩
  · refine ⟨i0, by simp, heq, ?_⟩
    intro j hj
    rcases List.mem_cons.mp hj with rfl | hj2
    · exact Nat.le_refl _
    · exact hall j hj2
  · refine ⟨i, by simp [hi], heq, ?_⟩
    intro j hj
    rcases List.mem_cons.mp hj with rfl | hj2
    · exact Nat.le_of_lt hlt
    · exact hmin j hj2

theorem bandOf_length (proj : List Nat) :
    (bandOf proj).length = bandEnd proj.length - bandStart proj.length := by
  unfold bandOf
  rw [List.length_take, List.length_drop]
  unfold bandStart bandEnd
  omega

theorem bandOf_getD (proj : List Nat) (k : Nat) (hk : k < (bandOf proj).length) :
    (bandOf proj).getD k 0 = proj.getD (bandStart proj.length + k) 0 := by
  have hb : bandStart proj.length + k < proj.length := by
    have hlen := bandOf_length proj
    unfold bandStart bandEnd at hlen
    unfold bandStart
    omega
  rw [List.getD_eq_getElem _ _ hk, List.getD_eq_getElem _ _ hb]
  unfold bandOf
  rw [List.getElem_take, List.getElem_drop]

theorem minColOf_min (proj : List Nat) (hb : bandStart proj.length < bandEnd proj.length) :
    bandStart proj.length ≤ minColOf proj ∧ minColOf proj < bandEnd proj.length ∧
      ∀ j, bandStart proj.length ≤ j → j < bandEnd proj.length →
        proj.getD (minColOf proj) 0 ≤ proj.getD j 0 := by
  have hlen : (bandOf proj).length = bandEnd proj.length - bandStart proj.length :=
    bandOf_length proj
  cases hband : bandOf proj with
  | nil => rw [hband] at hlen; simp at hlen; omega
  | cons x xs =>
      have hspec := argminIdx_spec x xs
      rw [← hband] at hspec
      obtain ⟨hlt, hmin⟩ := hspec
      refine ⟨Nat.le_add_right _ _, by unfold minColOf; omega, ?_⟩
      intro j hj1 hj2
      have hk : j - bandStart proj.length < (bandOf proj).length := by omega
      have h1 := bandOf_getD proj (argminIdx (bandOf proj)) hlt
      have h2 := bandOf_getD proj (j - bandStart proj.length) hk
      calc proj.getD (minColOf proj) 0
          = (bandOf proj).getD (argminIdx (bandOf proj)) 0 := h1.symm
        _ ≤ (bandOf proj).getD (j - bandStart proj.length) 0 := hmin _ hk
        _ = proj.getD j 0 := by rw [h2]; congr 1; omega

/-- Claim C8: whenever the optimized column splitter produces a split point
s for a region of width W, it satisfies 0 < s < W, and the widths of the
two numpy slices crop[:, :s] and crop[:, s:] sum to W. -/
theorem c8_split_bounds (proj : List Nat) (s : Nat)
    (h : detectAnswerSheetSplit proj = some s) :
    0 < s ∧ s < proj.length ∧
      sliceWidthTo proj.length s + sliceWidthFrom proj.length s = proj.length := by
  by_cases hb : bandStart proj.length < bandEnd proj.length
  case neg => rw [detectAnswerSheetSplit, if_neg hb] at h; exact Option.noConfusion h
  rw [detectAnswerSheetSplit, if_pos hb] at h
  have hs := Option.some.inj h
  obtain ⟨hge, hlt, _⟩ := minColOf_min proj hb
  have hw : 2 ≤ bandStart proj.length ∧ bandEnd proj.length ≤ proj.length := by
    unfold bandStart bandEnd at hb ⊢
    omega
  cases hc : refineCands proj.length (minColOf proj) with
  | nil =>
      rw [hc] at hs
      have hmc : minColOf proj = s := hs
      unfold sliceWidthTo sliceWidthFrom
      omega
  | cons c cs =>
      rw [hc] at hs
      obtain ⟨i, hi, heq, hminw⟩ := refineLoop_none_spec proj (minColOf proj) c cs
      rw [heq] at hs
      have hi2 : i ∈ refineCands proj.length (minColOf proj) := by rw [hc]; exact hi
      unfold refineCands at hi2
      rw [List.mem_range'_1] at hi2
      unfold sliceWidthTo sliceWidthFrom
      omega

/-- Witness for c8_split_bounds at a concrete input: on the 6-column profile
prof6 the splitter chooses column 2, which is interior and splits the width
exactly. -/
theorem c8_split_bounds_witness :
    0 < 2 ∧ 2 < prof6.length ∧
      sliceWidthTo prof6.length 2 + sliceWidthFrom prof6.length 2 = prof6.length :=
  c8_split_bounds prof6 2 rfl

set_option maxRecDepth 8000 in
/-- Claim C2 counterexample: on the 120-column profile profC2 the code
splits at column 64, while the column prescribed by the claim — the center
of the minimum-mean 20-column window computed over a central band of width
W/6 centered at W/2 — is 60. -/
theorem c2_counterexample :
    detectAnswerSheetSplit profC2 = some 64 ∧ specC2Split profC2 = some 60 ∧
      (64 : Nat) ≠ 60 := by
  refine ⟨?_, ?_, by decide⟩
  · rfl
  · rfl

/-- Claim C2 amended: the split is chosen in two stages — min_col is the
first minimum of the profile over the band
[max(0, W/2 - W/6), min(W, W/2 + W/6)) (so the band has width about W/3,
not W/6), and the returned split is the center i + 10 of the 20-column
window of minimal mean among start positions i within 10 columns of
min_col (bounded by W - 20), or min_col itself when no such window fits. -/
theorem c2_amended (proj : List Nat) (s : Nat) (h : detectAnswerSheetSplit proj = some s) :
    (bandStart proj.length ≤ minColOf proj ∧ minColOf proj < bandEnd proj.length ∧
      ∀ j, bandStart proj.length ≤ j → j < bandEnd proj.length →
        proj.getD (minColOf proj) 0 ≤ proj.getD j 0) ∧
    ((refineCands proj.length (minColOf proj) = [] ∧ s = minColOf proj) ∨
      (∃ i ∈ refineCands proj.length (minColOf proj), s = i + 10 ∧
        ∀ j ∈ refineCands proj.length (minColOf proj),
          windowSum proj i ≤ windowSum proj j)) := by
  by_cases hb : bandStart proj.length < bandEnd proj.length
  case neg => rw [detectAnswerSheetSplit, if_neg hb] at h; exact Option.noConfusion h
  rw [detectAnswerSheetSplit, if_pos hb] at h
  have hs := Option.some.inj h
  refine ⟨minColOf_min proj hb, ?_⟩
  cases hc : refineCands proj.length (minColOf proj) with
  | nil =>
      left
      rw [hc] at hs
      have hmc : minColOf proj = s := hs
      exact ⟨rfl, hmc.symm⟩
  | cons c cs =>
      right
      rw [hc] at hs
      obtain ⟨i, hi, heq, hminw⟩ := refineLoop_none_spec proj (minColOf proj) c cs
      rw [heq] at hs
      exact ⟨i, hi, hs.symm, hminw⟩

set_option maxRecDepth 4000 in
/-- Witness for c2_amended at the concrete profile profC2, where the code
splits at 64 = 54 + 10. -/
theorem c2_amended_witness :
    (bandStart profC2.length ≤ minColOf profC2 ∧ minColOf profC2 < bandEnd profC2.length ∧
      ∀ j, bandStart profC2.length ≤ j → j < bandEnd profC2.length →
        profC2.getD (minColOf profC2) 0 ≤ profC2.getD j 0) ∧
    ((refineCands profC2.length (minColOf profC2) = [] ∧ 64 = minColOf profC2) ∨
      (∃ i ∈ refineCands profC2.length (minColOf profC2), 64 = i + 10 ∧
        ∀ j ∈ refineCands profC2.length (minColOf profC2),
          windowSum profC2 i ≤ windowSum profC2 j)) :=
  c2_amended profC2 64 (by rfl)

/-! ## Claim C9 : the alternative profile-based splitter -/

/-- Claim C9: the alternative profile-based splitter splits at the exact
midpoint W/2 when the band minimum is not below 30% of the maximum flanking
density, and at the band's minimum-density column otherwise — the extra
`max_sides > 0` conjunct in the code is redundant because a Nat minimum can
never be below 30% of a zero maximum.  The two concrete profiles exercise
both branches: a contrasted valley at column 5, and a flat profile split at
12 / 2 = 6. -/
theorem c9_split_agrees :
    (∀ proj : List Nat, detectQuestionSplit proj = specC9Split proj) ∧
    detectQuestionSplit profC9a = some 5 ∧
    detectQuestionSplit profC9b = some 6 := by
  refine ⟨fun proj => ?_, rfl, rfl⟩
  unfold detectQuestionSplit specC9Split
  have key : ∀ a b : Nat, (0 < b ∧ 10 * a < 3 * b) ↔ 10 * a < 3 * b :=
    fun a b => ⟨fun h => h.2, fun h => ⟨by omega, h⟩⟩
  simp only [key]

/-! ## Claim C3 : the contour-based region locator -/

/-- Claim C3 counterexample: the thin sliver contour satisfies the claim's
filter (its bounding-box area 81 lies strictly between 10% and 90% of the
100-pixel image and its box spans neither full dimension), yet the locator
rejects it and fails, because the code filters on cv2.contourArea (polygon
area 4), not on bounding-box area. -/
theorem c3_counterexample :
    contourLocate 10 10 [sliverC3] = none ∧ specC3Keep 10 10 sliverC3 = true :=
  ⟨rfl, rfl⟩

theorem maxByArea_spec (cs : List Contour) : ∀ c : Contour,
    (maxByArea c cs = c ∨ maxByArea c cs ∈ cs) ∧
    contourArea2 c ≤ contourArea2 (maxByArea c cs) ∧
    ∀ d ∈ cs, contourArea2 d ≤ contourArea2 (maxByArea c cs) := by
  induction cs with
  | nil => intro c; exact ⟨Or.inl rfl, Nat.le_refl _, by simp⟩
  | cons d ds ih =>
      intro c
      have hstep : maxByArea c (d :: ds) =
          maxByArea (if contourArea2 d > contourArea2 c then d else c) ds := rfl
      rw [hstep]
      by_cases h : contourArea2 d > contourArea2 c
      · rw [if_pos h]
        obtain ⟨hmem, hc, hall⟩ := ih d
        refine ⟨?_, Nat.le_trans (Nat.le_of_lt h) hc, ?_⟩
        · rcases hmem with heq | hm
          · exact Or.inr (by rw [heq]; simp)
          · exact Or.inr (List.mem_cons_of_mem _ hm)
        · intro e he
          rcases List.mem_cons.mp he with rfl | he2
          · exact hc
          · exact hall e he2
      · rw [if_neg h]
        obtain ⟨hmem, hc, hall⟩ := ih c
        refine ⟨?_, hc, ?_⟩
        · rcases hmem with heq | hm
          · exact Or.inl heq
          · exact Or.inr (List.mem_cons_of_mem _ hm)
        · intro e he
          rcases List.mem_cons.mp he with rfl | he2
          · exact Nat.le_trans (Nat.le_of_not_lt h) hc
          · exact hall e he2

theorem contourLocate_eq (wImg hImg : Nat) (contours : List Contour) :
    contourLocate wImg hImg contours =
      (match contours.filter (candidatoKeep wImg hImg) with
       | [] => none
       | c :: cs => some (boundingRect (maxByArea c cs))) := rfl

/-- Claim C3 amended: the locator keeps exactly the contours whose polygon
(contour) area — not bounding-box area — lies strictly between 10% and 90%
of the image area and whose bounding box spans neither the full width nor
the full height; it returns the bounding box of a kept contour of maximal
contour area, and fails (NoRegionFound) exactly when no contour passes the
filter. -/
theorem c3_amended (wImg hImg : Nat) (contours : List Contour) :
    (contourLocate wImg hImg contours = none ↔
      ∀ c ∈ contours, candidatoKeep wImg hImg c = false) ∧
    (∀ r, contourLocate wImg hImg contours = some r →
      ∃ c ∈ contours, candidatoKeep wImg hImg c = true ∧ r = boundingRect c ∧
        ∀ d ∈ contours, candidatoKeep wImg hImg d = true →
          contourArea2 d ≤ contourArea2 c) := by
  constructor
  · constructor
    · intro hnone c hc
      by_contra hkeep
      have hkt : candidatoKeep wImg hImg c = true := by
        cases hq : candidatoKeep wImg hImg c
        · exact absurd hq hkeep
        · rfl
      have hcf : c ∈ contours.filter (candidatoKeep wImg hImg) :=
        List.mem_filter.mpr ⟨hc, hkt⟩
      rw [contourLocate_eq] at hnone
      cases hfc : contours.filter (candidatoKeep wImg hImg) with
      | nil => rw [hfc] at hcf; cases hcf
      | cons c0 cs0 => rw [hfc] at hnone; exact Option.noConfusion hnone
    · intro hall
      rw [contourLocate_eq]
      cases hfc : contours.filter (candidatoKeep wImg hImg) with
      | nil => rfl
      | cons c0 cs0 =>
          have hc0 : c0 ∈ contours.filter (candidatoKeep wImg hImg) := by rw [hfc]; simp
          have hm := List.mem_filter.mp hc0
          rw [hall c0 hm.1] at hm
          exact Bool.noConfusion hm.2
  · intro r hr
    rw [contourLocate_eq] at hr
    cases hf : contours.filter (candidatoKeep wImg hImg) with
    | nil => rw [hf] at hr; exact Option.noConfusion hr
    | cons c0 cs0 =>
        rw [hf] at hr
        have hr2 : r = boundingRect (maxByArea c0 cs0) := (Option.some.inj hr).symm
        obtain ⟨hmem, hc, hall⟩ := maxByArea_spec cs0 c0
        have hmemf : maxByArea c0 cs0 ∈ contours.filter (candidatoKeep wImg hImg) := by
          rw [hf]
          rcases hmem with heq | hm
          · rw [heq]; simp
          · exact List.mem_cons_of_mem _ hm
        have hmf := List.mem_filter.mp hmemf
        refine ⟨maxByArea c0 cs0, hmf.1, hmf.2, hr2, ?_⟩
        intro d hd hkd
        have hdf : d ∈ contours.filter (candidatoKeep wImg hImg) :=
          List.mem_filter.mpr ⟨hd, hkd⟩
        rw [hf] at hdf
        rcases List.mem_cons.mp hdf with rfl | hd2
        · exact hc
        · exact hall d hd2

/-- Witness for c3_amended at a concrete input: on the single qualifying
square contour the locator returns its bounding box (2, 2, 6, 6). -/
theorem c3_amended_witness :
    ∃ c ∈ [squareC3], candidatoKeep 10 10 c = true ∧
      ((2, 2, 6, 6) : Nat × Nat × Nat × Nat) = boundingRect c ∧
      ∀ d ∈ [squareC3], candidatoKeep 10 10 d = true →
        contourArea2 d ≤ contourArea2 c :=
  (c3_amended 10 10 [squareC3]).2 (2, 2, 6, 6) rfl

/-! ## Claim C7 : the async orchestrator -/

theorem gatherFrom_spec (service : Nat → ImgBlock → SvcOutcome)
    (decode : String → Option JVal) (blocks : List (Option ImgBlock)) : ∀ i : Nat,
    (gatherFrom service decode i blocks).length = blocks.length ∧
    ∀ j (hj : j < blocks.length) (hj2 : j < (gatherFrom service decode i blocks).length),
      (gatherFrom service decode i blocks).get ⟨j, hj2⟩ =
        analyzeBlockAsync service decode (blocks.get ⟨j, hj⟩) (i + j) := by
  induction blocks with
  | nil =>
      intro i
      exact ⟨rfl, fun j hj => absurd hj (by simp)⟩
  | cons b rest ih =>
      intro i
      obtain ⟨hlen, hidx⟩ := ih (i + 1)
      refine ⟨by simp [gatherFrom, hlen], ?_⟩
      intro j hj hj2
      cases j with
      | zero =>
          rw [show (gatherFrom service decode i (b :: rest)).get ⟨0, hj2⟩ =
                analyzeBlockAsync service decode b i from rfl,
            show ((b :: rest).get ⟨0, hj⟩) = b from rfl, Nat.add_zero]
      | succ k =>
          have hk : k < rest.length := Nat.lt_of_succ_lt_succ hj
          have hk2 : k < (gatherFrom service decode (i + 1) rest).length := by
            rw [hlen]; exact hk
          rw [show (gatherFrom service decode i (b :: rest)).get ⟨k + 1, hj2⟩ =
                (gatherFrom service decode (i + 1) rest).get ⟨k, hk2⟩ from rfl,
            show ((b :: rest).get ⟨k + 1, hj⟩) = rest.get ⟨k, hk⟩ from rfl,
            hidx k hk hk2, show i + 1 + k = i + (k + 1) from by omega]

theorem analyzeBlockAsync_raise (service : Nat → ImgBlock → SvcOutcome)
    (decode : String → Option JVal) (b : ImgBlock) (id : Nat)
    (hsz : ¬ b.size = 0) (hr : service id b = .raise) :
    analyzeBlockAsync service decode (some b) id = none := by
  have he : analyzeBlockAsync service decode (some b) id =
      (match analyzeBlockBody service decode (some b) id with
       | .ok v => v
       | .error _ => none) := rfl
  have hbody : analyzeBlockBody service decode (some b) id =
      (if b.size = 0 then .ok none
       else
         match service id b with
         | .raise => .error ()
         | .response t =>
             match decode t with
             | some j => .ok (some j)
             | none => .ok none) := rfl
  rw [he, hbody, if_neg hsz, hr]

/-- Claim C7: the orchestrator returns exactly one result per input block,
index-aligned in input order; each slot is the analysis of its own block
with its own 1-based ordinal, so a failing service call for one block puts
the failure marker None in that slot only and cannot abort the batch or
affect the sibling slots. -/
theorem c7_orchestrator (service : Nat → ImgBlock → SvcOutcome)
    (decode : String → Option JVal) (blocks : List (Option ImgBlock)) :
    (processBlocksAsync service decode blocks).length = blocks.length ∧
    (∀ j (hj : j < blocks.length)
        (hj2 : j < (processBlocksAsync service decode blocks).length),
      (processBlocksAsync service decode blocks).get ⟨j, hj2⟩ =
        analyzeBlockAsync service decode (blocks.get ⟨j, hj⟩) (j + 1)) ∧
    (∀ j (hj : j < blocks.length)
        (hj2 : j < (processBlocksAsync service decode blocks).length) (b : ImgBlock),
      blocks.get ⟨j, hj⟩ = some b → ¬ b.size = 0 → service (j + 1) b = .raise →
      (processBlocksAsync service decode blocks).get ⟨j, hj2⟩ = none) := by
  cases blocks with
  | nil =>
      refine ⟨rfl, fun j hj => absurd hj (by simp), fun j hj => absurd hj (by simp)⟩
  | cons b rest =>
      have hp : processBlocksAsync service decode (b :: rest) =
          gatherFrom service decode 1 (b :: rest) := rfl
      obtain ⟨hlen, hidx⟩ := gatherFrom_spec service decode (b :: rest) 1
      refine ⟨hlen, ?_, ?_⟩
      · intro j hj hj2
        have hj2g : j < (gatherFrom service decode 1 (b :: rest)).length := hj2
        have h2 := hidx j hj hj2g
        rw [Nat.add_comm 1 j] at h2
        exact h2
      · intro j hj hj2 bb hbb hsz hr
        have hj2g : j < (gatherFrom service decode 1 (b :: rest)).length := hj2
        have h2 := hidx j hj hj2g
        rw [Nat.add_comm 1 j, hbb] at h2
        exact h2.trans (analyzeBlockAsync_raise service decode bb (j + 1) hsz hr)

/-- Witness for c7_orchestrator at a concrete input: with a service that
always raises, the single block's slot holds the failure marker None. -/
theorem c7_orchestrator_witness :
    (processBlocksAsync (fun _ _ => SvcOutcome.raise) (fun _ => none)
        [some ⟨5⟩]).get ⟨0, by decide⟩ = none :=
  (c7_orchestrator (fun _ _ => SvcOutcome.raise) (fun _ => none) [some ⟨5⟩]).2.2
    0 (by decide) (by decide) ⟨5⟩ rfl (by decide) rfl

/-! ## Claim C10 : the segmentation wrapper -/

/-- Claim C10: segment_image_blocks never lets an exception escape; for
every detector outcome it returns either None or a list of exactly two
blocks, each of positive size. -/
theorem c10_segmentation (outcome : DetectOutcome) :
    segmentImageBlocks outcome = none ∨
    ∃ l r, segmentImageBlocks outcome = some [l, r] ∧ 0 < l.size ∧ 0 < r.size := by
  cases outcome with
  | raise => exact Or.inl rfl
  | pair left right =>
      cases left with
      | none => exact Or.inl (by cases right <;> rfl)
      | some l =>
          cases right with
          | none => exact Or.inl rfl
          | some r =>
              have he : segmentImageBlocks (.pair (some l) (some r)) =
                  (if l.size = 0 ∨ r.size = 0 then none else some [l, r]) := rfl
              by_cases h : l.size = 0 ∨ r.size = 0
              · exact Or.inl (by rw [he, if_pos h])
              · refine Or.inr ⟨l, r, by rw [he, if_neg h], ?_, ?_⟩ <;> omega

end Saeb
